import Mathlib

/-!
Verification of the `async_stack_traces` plugin-test fixture from
`rust-dbg-ext` and of the asynchronous logical-stack reconstructor it
exercises.

The repository contains the fixture only:
  * `src/bin/basic_async_stack_trace.rs` — the async functions `foo`,
    `bar`, `baz`, a `main` that polls `foo(42)` once, and the golden
    transcript of the expected stack-trace report (`#check` lines);
  * `src/lib.rs` — `dummy_waker` (a no-op waker) and `zzz` (a
    volatile-read breakpoint anchor).

The reconstructor itself (Reader / Synthesizer / Walker / Printer) is
not part of the repository sources, so it is modelled from the spec and
checked against the golden transcript embedded in the fixture.

Machine integers (`u32`) are modelled as `Nat` with explicit reduction
modulo `2^32`.
-/

namespace AsyncStackTraces

/-- The modulus of Rust's `u32` type. -/
def U32_MOD : Nat := 2 ^ 32

/-- Wrap a natural number into the `u32` range (wrapping semantics of
`u32` arithmetic). -/
def wrap (n : Nat) : Nat := n % U32_MOD

/-- The suspended-state tree of a paused asynchronous computation, as
captured on the heap after a poll that returned `Pending`.  Mirrors the
spec's `StateNode`: a pending leaf, a sequential frame (an async fn
suspended at an `.await`, with its captured locals and the awaited
child), or a combinator over an ordered list of branches (the
`race` combinator of `futures_concurrency`). -/
inductive FutureState where
  | pendingLeaf (tyName : String)
  | frame (fnName : String) (locals : List (String × Nat)) (child : FutureState)
  | race (branches : List FutureState)

/-- Outcome of polling a future once: either ready with a `u32` value,
or suspended with the captured state tree (Rust's `Poll::Pending`). -/
inductive PollResult where
  | ready (v : Nat)
  | suspended (st : FutureState)

/-- The Rust type name of the pending leaf awaited inside `baz`. -/
def pendingTyName : String := "futures_util::future::pending::Pending<u32>"

/-- Polling `futures::future::pending::<u32>()`: it returns
`Poll::Pending` on every poll, no matter how many times it has been
polled before (the argument is the poll count). -/
def pendingPoll (_pollCount : Nat) : PollResult :=
  .suspended (.pendingLeaf pendingTyName)

/-- First poll of `baz(x)` from the fixture:
`let y = x << 1; futures::future::pending::<u32>().await + x * y`.
The await on the perpetually pending leaf suspends, capturing `x` and
`y`.  (Capture order `x, y` is the order recorded in the fixture's
golden transcript.) -/
def bazPoll (x : Nat) : PollResult :=
  let y := wrap (x <<< 1)
  match pendingPoll 0 with
  | .ready v => .ready (wrap (v + wrap (x * y)))
  | .suspended st =>
      .suspended (.frame "basic_async_stack_trace::baz()" [("x", x), ("y", y)] st)

/-- Polling a `race` combinator given the poll results of its branches
(in construction order): the first branch that is ready wins; if none
is ready the race is suspended with every branch's captured state, in
construction order. -/
def racePoll (rs : List PollResult) : PollResult :=
  match rs.findSome? (fun r => match r with | .ready v => some v | .suspended _ => none) with
  | some v => .ready v
  | none =>
      .suspended (.race (rs.filterMap
        (fun r => match r with | .suspended st => some st | .ready _ => none)))

/-- First poll of `bar(x)` from the fixture:
`let a = x * 2; [baz(x + 1), baz(a + 2), baz(x + 3)].race().await * 7 + a`.
The race over the three `baz` branches is pending, so `bar` suspends,
capturing `a` and `x`.  (Capture order `a, x` is the order recorded in
the fixture's golden transcript.) -/
def barPoll (x : Nat) : PollResult :=
  let a := wrap (x * 2)
  match racePoll [bazPoll (wrap (x + 1)), bazPoll (wrap (a + 2)), bazPoll (wrap (x + 3))] with
  | .ready v => .ready (wrap (wrap (v * 7) + a))
  | .suspended st =>
      .suspended (.frame "basic_async_stack_trace::bar()" [("a", a), ("x", x)] st)

/-- First poll of `foo(x)` from the fixture:
`bar(x + 1).await + 7`.  `bar` is pending, so `foo` suspends,
capturing `x`. -/
def fooPoll (x : Nat) : PollResult :=
  match barPoll (wrap (x + 1)) with
  | .ready v => .ready (wrap (v + 7))
  | .suspended st =>
      .suspended (.frame "basic_async_stack_trace::foo()" [("x", x)] st)

/-- Whether a poll result is `Poll::Pending` (a suspension). -/
def isPending : PollResult → Bool
  | .ready _ => false
  | .suspended _ => true

/-- `main` from the fixture polls `Box::pin(foo(42))` exactly once. -/
def mainPollResult : PollResult := fooPoll 42

/-- The `assert_eq!(future.poll_unpin(cx), Poll::Pending)` in `main`
succeeds iff the single poll is pending. -/
def mainAssertOk : Bool := isPending mainPollResult

/-- The suspended state of a poll result, when there is one. -/
def suspState : PollResult → Option FutureState
  | .ready _ => none
  | .suspended st => some st

/-- The suspended state of a poll result, defaulting to a marker leaf
for a completed poll (never reached in the fixture). -/
def suspStateD : PollResult → FutureState
  | .ready _ => .pendingLeaf "<completed>"
  | .suspended st => st

/-- Captured locals of the outermost frame of a suspended poll result. -/
def topLocals : PollResult → Option (List (String × Nat))
  | .suspended (.frame _ ls _) => some ls
  | _ => none

/-! ## The reconstructor (Stack Walker and Pretty Printer)

Modelled from the spec: the `print-stack-trace` command's Walker and
Printer are not part of this repository's sources, only the golden
transcript they must produce is.  The Walker below performs the spec's
depth-first traversal (sequential chain outermost-to-innermost, all
combinator branches in declared order, each with a branch marker), with
the spec's recursion-depth safety bound; the Printer renders one line
per entry, locals as `name=value` pairs in synthesizer order, combinator
frames as a `(SELECT)` marker followed by arrow-prefixed branches. -/

/-- One entry of the walked report: a logical frame line, a combinator
selection marker, a pending leaf, or the truncation marker emitted when
the depth safety bound is exceeded.  `col` is the indentation column;
`branchHead` marks the first entry of a combinator branch (rendered with
an arrow marker). -/
inductive WalkEntry where
  | frameE (name : String) (locals : List (String × Nat)) (col : Nat) (branchHead : Bool)
  | selectE (col : Nat)
  | leafE (tyName : String) (col : Nat) (branchHead : Bool)
  | truncatedE (col : Nat)
deriving DecidableEq, Repr

/-- Modelled from the spec: the Stack Walker.  Depth-first traversal of
the suspended-state tree.  A sequential child is visited two columns
deeper than its parent frame's name; a combinator child emits a
selection marker at the parent's name column, then every branch in
declared construction order, each marked as a branch head; branch
contents start three columns to the right of the marker (past the
arrow).  `fuel` is the recursion-depth safety bound: when it runs out
the walk stops with a truncation marker instead of looping. -/
def walk (fuel : Nat) (st : FutureState) (col : Nat) (branchHead : Bool) :
    List WalkEntry :=
  match fuel with
  | 0 => [.truncatedE col]
  | f + 1 =>
    match st with
    | .pendingLeaf ty => [.leafE ty col branchHead]
    | .race bs =>
        .selectE col :: (bs.map (fun b => walk f b col true)).flatten
    | .frame n ls child =>
        let nameCol := col + (if branchHead then 3 else 0)
        .frameE n ls col branchHead ::
        (match child with
         | .race bs =>
             .selectE nameCol :: (bs.map (fun b => walk f b nameCol true)).flatten
         | c => walk f c (nameCol + 2) false)

/-- The depth safety bound used for the fixture's report (any bound
larger than the fixture's nesting depth gives the same report). -/
def defaultFuel : Nat := 64

/-- A run of `col` spaces. -/
def pad (col : Nat) : String := String.mk (List.replicate col ' ')

/-- Modelled from the spec: captured locals rendered as `name=value`
pairs, comma-separated, in the order the Synthesizer produced them. -/
def renderLocals (ls : List (String × Nat)) : String :=
  "[" ++ String.intercalate ", " (ls.map (fun p => p.1 ++ "=" ++ toString p.2)) ++ "]"

/-- Modelled from the spec: the Pretty Printer's rendering of one walk
entry as one line of the report.  A branch head is introduced by the
arrow marker. -/
def renderEntry : WalkEntry → String
  | .frameE n ls col false => pad col ++ n ++ " " ++ renderLocals ls
  | .frameE n ls col true => pad col ++ "=> " ++ n ++ " " ++ renderLocals ls
  | .selectE col => pad col ++ "(SELECT)"
  | .leafE ty col false => pad col ++ ty
  | .leafE ty col true => pad col ++ "=> " ++ ty
  | .truncatedE col => pad col ++ "<truncated>"

/-- Modelled from the spec: the whole reconstructor on a suspended
state: walk, then render each entry as one line. -/
def renderReport (st : FutureState) : List String :=
  (walk defaultFuel st 0 false).map renderEntry

/-- The golden transcript from the fixture's `#check` lines (the text
after `#check ` on each line of the expected stack-trace report in
`basic_async_stack_trace.rs`). -/
def expectedLines : List String :=
  [ "basic_async_stack_trace::foo() [x=42]"
  , "  basic_async_stack_trace::bar() [a=86, x=43]"
  , "  (SELECT)"
  , "  => basic_async_stack_trace::baz() [x=44, y=88]"
  , "       futures_util::future::pending::Pending<u32>"
  , "  => basic_async_stack_trace::baz() [x=88, y=176]"
  , "       futures_util::future::pending::Pending<u32>"
  , "  => basic_async_stack_trace::baz() [x=46, y=92]"
  , "       futures_util::future::pending::Pending<u32>"
  ]

/-! ## Generic shapes for the spec's testable properties -/

/-- A purely sequential chain: each listed `(name, locals)` pair is one
async frame awaiting the next, the innermost awaiting a pending leaf
with the given type name.  `N` nested awaits with `N + 1` frames
corresponds to a list of length `N + 1`. -/
def mkSeqChain : List (String × List (String × Nat)) → String → FutureState
  | [], ty => .pendingLeaf ty
  | (n, ls) :: rest, ty => .frame n ls (mkSeqChain rest ty)

/-- The logical frames of a walked report, in emission order. -/
def frameEntries : List WalkEntry → List (String × List (String × Nat))
  | [] => []
  | .frameE n ls _ _ :: rest => (n, ls) :: frameEntries rest
  | _ :: rest => frameEntries rest

/-- Whether a state tree contains no combinator anywhere. -/
def raceFree : FutureState → Bool
  | .pendingLeaf _ => true
  | .frame _ _ child => raceFree child
  | .race _ => false

/-- The nesting depth of a sequential state tree. -/
def seqDepth : FutureState → Nat
  | .pendingLeaf _ => 1
  | .frame _ _ child => seqDepth child + 1
  | .race _ => 1

/-- Whether a walk entry opens a combinator branch group (it carries the
arrow marker). -/
def isBranchHead : WalkEntry → Bool
  | .frameE _ _ _ bh => bh
  | .leafE _ _ bh => bh
  | .selectE _ => false
  | .truncatedE _ => false

/-- The branch-group head entries of a walked report, in emission
order. -/
def branchHeads (es : List WalkEntry) : List WalkEntry := es.filter isBranchHead

/-- The label shown on a walk entry's line. -/
def entryLabel : WalkEntry → String
  | .frameE n _ _ _ => n
  | .leafE ty _ _ => ty
  | .selectE _ => "(SELECT)"
  | .truncatedE _ => "<truncated>"

/-- The label of the first line a state tree produces. -/
def headLabel : FutureState → String
  | .pendingLeaf ty => ty
  | .frame n _ _ => n
  | .race _ => "(SELECT)"

/-! ## Scheduling model for the no-op waker (`lib.rs`) -/

/-- Scheduling state observable by the fixture's waker: how many wake
requests are pending with an executor and how many times the root
future has been polled. -/
structure SchedState where
  pendingWakes : Nat
  polls : Nat
deriving DecidableEq, Repr

/-- `dummy_waker`'s `wake_by_ref` from `lib.rs`: its body is empty
(`// noop`), so it enqueues nothing and leaves all scheduling state
unchanged. -/
def dummyWakeByRef (s : SchedState) : SchedState := s

/-- `Waker::wake` on the `ArcWake` wrapper delegates to
`wake_by_ref`. -/
def dummyWake (s : SchedState) : SchedState := dummyWakeByRef s

/-- Scheduling state right after `main`'s single
`future.poll_unpin(cx)`: one poll, no wake request ever enqueued. -/
def mainSchedState : SchedState := { pendingWakes := 0, polls := 1 }

/-! ## Memory-effect model for `zzz` (`lib.rs`) -/

/-- A primitive effect on the target process's memory. -/
inductive MemEffect where
  | read (addr : Nat)
  | write (addr : Nat) (val : Nat)
deriving DecidableEq, Repr

/-- Semantics of one memory effect: a read leaves memory as it is, a
write updates one cell. -/
def applyEffect (mem : Nat → Nat) : MemEffect → (Nat → Nat)
  | .read _ => mem
  | .write a v => Function.update mem a v

/-- Memory after a sequence of effects. -/
def applyEffects (mem : Nat → Nat) : List MemEffect → (Nat → Nat)
  | [] => mem
  | e :: es => applyEffects (applyEffect mem e) es

/-- `std::ptr::read_volatile(v)`: yields the value stored at `v`
together with its effect trace, a single read of `v`. -/
def readVolatile (mem : Nat → Nat) (addr : Nat) : Nat × List MemEffect :=
  (mem addr, [.read addr])

/-- `zzz` from `lib.rs`: volatile-reads the value at `v`, discards it
(`let _ = ...`) and returns unit; its effect trace is that of the
volatile read alone. -/
def zzz (mem : Nat → Nat) (addr : Nat) : Unit × List MemEffect :=
  let r := readVolatile mem addr
  ((), r.2)

/-- Whether a memory effect is a read. -/
def isReadEffect : MemEffect → Bool
  | .read _ => true
  | .write _ _ => false

/-! ## Helper lemmas -/

/-- Walking a purely sequential chain yields exactly the listed frames,
in caller-to-callee order, as long as the depth bound exceeds the chain
length. -/
theorem frameEntries_walk_seqChain (fs : List (String × List (String × Nat))) :
    ∀ (ty : String) (fuel col : Nat) (bh : Bool), fs.length < fuel →
      frameEntries (walk fuel (mkSeqChain fs ty) col bh) = fs := by
  induction fs with
  | nil =>
      intro ty fuel col bh h
      match fuel, h with
      | f + 1, _ => simp [mkSeqChain, walk, frameEntries]
  | cons p rest ih =>
      intro ty fuel col bh h
      match fuel, h with
      | f + 1, h =>
        obtain ⟨n, ls⟩ := p
        cases rest with
        | nil =>
            have h0 : (0 : Nat) < f := by simpa using h
            match f, h0 with
            | g + 1, _ => simp [mkSeqChain, walk, frameEntries]
        | cons q rest2 =>
            have hlt : (q :: rest2).length < f := by
              simpa [Nat.succ_lt_succ_iff] using h
            simpa [mkSeqChain, walk, frameEntries] using ih ty f _ false hlt

/-- A combinator-free subtree walked outside branch-head position
contributes no branch heads, whatever the remaining depth bound. -/
theorem branchHeads_walk_nf (fuel : Nat) :
    ∀ (c : FutureState) (col : Nat), raceFree c = true →
      branchHeads (walk fuel c col false) = [] := by
  induction fuel with
  | zero => intro c col hrf; simp [walk, branchHeads, isBranchHead]
  | succ f ih =>
      intro c col hrf
      cases c with
      | pendingLeaf ty => simp [walk, branchHeads, isBranchHead]
      | race bs => simp [raceFree] at hrf
      | frame n ls child =>
          have hch : raceFree child = true := by simpa [raceFree] using hrf
          cases child with
          | race bs => simp [raceFree] at hch
          | pendingLeaf ty =>
              simp [walk, branchHeads, isBranchHead, List.filter] at *
              simpa [branchHeads, walk] using ih (.pendingLeaf ty) (col + 2) hch
          | frame n2 ls2 child2 =>
              simpa [walk, branchHeads, isBranchHead, List.filter]
                using ih (.frame n2 ls2 child2) (col + 2) hch

/-- A combinator-free branch walked in branch-head position contributes
exactly one branch head, labelled by the head of the branch. -/
theorem branchHeads_walk_bh (f col : Nat) (b : FutureState) (hrf : raceFree b = true) :
    (branchHeads (walk (f + 1) b col true)).map entryLabel = [headLabel b] := by
  cases b with
  | pendingLeaf ty => simp [walk, branchHeads, isBranchHead, entryLabel, headLabel]
  | race bs => simp [raceFree] at hrf
  | frame n ls child =>
      have hch : raceFree child = true := by simpa [raceFree] using hrf
      cases child with
      | race bs => simp [raceFree] at hch
      | pendingLeaf ty =>
          simpa [walk, branchHeads, isBranchHead, entryLabel, headLabel, List.filter]
            using congrArg (List.map entryLabel)
              (branchHeads_walk_nf f (.pendingLeaf ty) (col + 3 + 2) hch)
      | frame n2 ls2 child2 =>
          simpa [walk, branchHeads, isBranchHead, entryLabel, headLabel, List.filter]
            using congrArg (List.map entryLabel)
              (branchHeads_walk_nf f (.frame n2 ls2 child2) (col + 3 + 2) hch)

/-- Walking a combinator over combinator-free branches emits one branch
head per branch, in declared construction order. -/
theorem branchHeads_walk_race (bs : List FutureState) (f col : Nat)
    (h : ∀ b ∈ bs, raceFree b = true) :
    (branchHeads (walk (f + 2) (.race bs) col false)).map entryLabel
      = bs.map headLabel := by
  have key : ∀ (l : List FutureState), (∀ b ∈ l, raceFree b = true) →
      (branchHeads ((l.map (fun b => walk (f + 1) b col true)).flatten)).map entryLabel
        = l.map headLabel := by
    intro l
    induction l with
    | nil => intro _; simp [branchHeads]
    | cons b rest ih =>
        intro hl
        have hb : raceFree b = true := hl b (List.mem_cons_self b rest)
        have hr : ∀ x ∈ rest, raceFree x = true := fun x hx => hl x (List.mem_cons_of_mem b hx)
        simp only [List.map_cons, List.flatten_cons, branchHeads, List.filter_append,
          List.map_append]
        rw [show (walk (f + 1) b col true).filter isBranchHead
          = branchHeads (walk (f + 1) b col true) from rfl]
        rw [show ((rest.map (fun b => walk (f + 1) b col true)).flatten).filter isBranchHead
          = branchHeads ((rest.map (fun b => walk (f + 1) b col true)).flatten) from rfl]
        rw [branchHeads_walk_bh f col b hb, ih hr]
        simp
  have hw : walk (f + 2) (.race bs) col false
      = .selectE col :: (bs.map (fun b => walk (f + 1) b col true)).flatten := rfl
  rw [hw]
  have hsel : branchHeads (.selectE col :: (bs.map (fun b => walk (f + 1) b col true)).flatten)
      = branchHeads ((bs.map (fun b => walk (f + 1) b col true)).flatten) := by
    simp [branchHeads, List.filter, isBranchHead]
  rw [hsel, key bs h]

/-! ## Claim theorems -/

/-- Claim C1: polling the root future `foo(42)` once suspends with
exactly a `foo` frame capturing `x=42`, a `bar` frame capturing
`a=86, x=43`, a race combinator over three `baz` branches capturing
`(x=44, y=88)`, `(x=88, y=176)`, `(x=46, y=92)` in that order, each
branch suspended on a pending leaf of type
`futures_util::future::pending::Pending<u32>`; the rendered report of
that state matches the fixture's expected report line for line. -/
theorem c1_captured_state_after_single_poll :
    fooPoll 42 = .suspended (
      .frame "basic_async_stack_trace::foo()" [("x", 42)]
        (.frame "basic_async_stack_trace::bar()" [("a", 86), ("x", 43)]
          (.race
            [ .frame "basic_async_stack_trace::baz()" [("x", 44), ("y", 88)]
                (.pendingLeaf pendingTyName)
            , .frame "basic_async_stack_trace::baz()" [("x", 88), ("y", 176)]
                (.pendingLeaf pendingTyName)
            , .frame "basic_async_stack_trace::baz()" [("x", 46), ("y", 92)]
                (.pendingLeaf pendingTyName)
            ])))
    ∧ renderReport (suspStateD mainPollResult) = expectedLines :=
  ⟨rfl, rfl⟩

/-- Claim C2: a purely sequential chain of `N` nested awaits (hence
`N + 1` frames and no combinator) walks to exactly the `N + 1` listed
frames in strict caller-to-callee order, for any depth bound above the
chain length; in the fixture, the sequential prefix gives exactly the
`foo` line followed by the `bar` line at the top of the report. -/
theorem c2_sequential_chain_frames (fs : List (String × List (String × Nat)))
    (ty : String) (fuel col : Nat) (h : fs.length < fuel) :
    (frameEntries (walk fuel (mkSeqChain fs ty) col false) = fs
      ∧ (frameEntries (walk fuel (mkSeqChain fs ty) col false)).length = fs.length)
    ∧ (renderReport (suspStateD mainPollResult)).take 2
        = [ "basic_async_stack_trace::foo() [x=42]"
          , "  basic_async_stack_trace::bar() [a=86, x=43]" ] := by
  have hgen := frameEntries_walk_seqChain fs ty fuel col false h
  exact ⟨⟨hgen, by rw [hgen]⟩, rfl⟩

/-- Witness for C2: a two-frame sequential chain (one nested await)
with depth bound 3. -/
theorem c2_sequential_chain_frames_witness :
    (frameEntries (walk 3 (mkSeqChain [("f", [("x", 1)]), ("g", [])] "p") 0 false)
        = [("f", [("x", 1)]), ("g", [])]
      ∧ (frameEntries (walk 3 (mkSeqChain [("f", [("x", 1)]), ("g", [])] "p") 0 false)).length
        = [("f", [("x", 1)]), ("g", [])].length)
    ∧ (renderReport (suspStateD mainPollResult)).take 2
        = [ "basic_async_stack_trace::foo() [x=42]"
          , "  basic_async_stack_trace::bar() [a=86, x=43]" ] :=
  c2_sequential_chain_frames [("f", [("x", 1)]), ("g", [])] "p" 3 0 (by decide)

/-- Claim C3: a combinator over `K` combinator-free branches walks to
exactly `K` branch groups, in declared construction order, whatever
branch would eventually win; in the fixture the race yields exactly the
three `baz` branch heads in the order of arguments 44, 88, 46. -/
theorem c3_combinator_branch_groups (bs : List FutureState) (f col : Nat)
    (h : ∀ b ∈ bs, raceFree b = true) :
    ((branchHeads (walk (f + 2) (.race bs) col false)).map entryLabel = bs.map headLabel
      ∧ (branchHeads (walk (f + 2) (.race bs) col false)).length = bs.length)
    ∧ branchHeads (walk defaultFuel (suspStateD mainPollResult) 0 false)
        = [ .frameE "basic_async_stack_trace::baz()" [("x", 44), ("y", 88)] 2 true
          , .frameE "basic_async_stack_trace::baz()" [("x", 88), ("y", 176)] 2 true
          , .frameE "basic_async_stack_trace::baz()" [("x", 46), ("y", 92)] 2 true ] := by
  have hgen := branchHeads_walk_race bs f col h
  refine ⟨⟨hgen, ?_⟩, rfl⟩
  have hlen := congrArg List.length hgen
  simpa using hlen

/-- Witness for C3: a race over one pending-leaf branch with depth
bound 2. -/
theorem c3_combinator_branch_groups_witness :
    ((branchHeads (walk (0 + 2) (.race [.pendingLeaf "p"]) 0 false)).map entryLabel
        = [FutureState.pendingLeaf "p"].map headLabel
      ∧ (branchHeads (walk (0 + 2) (.race [.pendingLeaf "p"]) 0 false)).length
        = [FutureState.pendingLeaf "p"].length)
    ∧ branchHeads (walk defaultFuel (suspStateD mainPollResult) 0 false)
        = [ .frameE "basic_async_stack_trace::baz()" [("x", 44), ("y", 88)] 2 true
          , .frameE "basic_async_stack_trace::baz()" [("x", 88), ("y", 176)] 2 true
          , .frameE "basic_async_stack_trace::baz()" [("x", 46), ("y", 92)] 2 true ] :=
  c3_combinator_branch_groups [.pendingLeaf "p"] 0 0 (by
    intro b hb
    simp only [List.mem_singleton] at hb
    rw [hb]
    rfl)

/-- Claim C4: a frame line renders its captured locals as `name=value`
pairs in the order the synthesizer produced them; in the fixture the
`bar` frame renders exactly `a=86, x=43`, matching the golden
transcript's second line. -/
theorem c4_locals_rendered_in_capture_order :
    renderReport (suspStateD mainPollResult) = expectedLines
    ∧ (renderReport (suspStateD mainPollResult))[1]?
        = some "  basic_async_stack_trace::bar() [a=86, x=43]"
    ∧ topLocals (barPoll 43) = some [("a", 86), ("x", 43)]
    ∧ renderLocals [("a", 86), ("x", 43)] = "[a=86, x=43]"
    ∧ renderEntry (.frameE "basic_async_stack_trace::bar()" [("a", 86), ("x", 43)] 2 false)
        = "  basic_async_stack_trace::bar() [a=86, x=43]" :=
  ⟨rfl, rfl, rfl, rfl, rfl⟩

/-- Claim C5: for every `u32` input `x`, the local `a` captured by
`bar` equals `x * 2` wrapped modulo `2^32` and the local `y` captured
by `baz` equals `x <<< 1` wrapped, which equals `2 * x` modulo `2^32`;
at the fixture's inputs no wrap occurs: `a = 86` and
`y = 88, 176, 92`. -/
theorem c5_wrapping_arithmetic (x : Nat) (h : x < U32_MOD) :
    topLocals (barPoll x) = some [("a", (x * 2) % U32_MOD), ("x", x)]
    ∧ topLocals (bazPoll x) = some [("x", x), ("y", (x <<< 1) % U32_MOD)]
    ∧ (x <<< 1) % U32_MOD = (2 * x) % U32_MOD
    ∧ topLocals (barPoll 43) = some [("a", 86), ("x", 43)]
    ∧ topLocals (bazPoll 44) = some [("x", 44), ("y", 88)]
    ∧ topLocals (bazPoll 88) = some [("x", 88), ("y", 176)]
    ∧ topLocals (bazPoll 46) = some [("x", 46), ("y", 92)] := by
  refine ⟨rfl, rfl, ?_, rfl, rfl, rfl, rfl⟩
  simp [Nat.shiftLeft_eq, Nat.mul_comm]

/-- Witness for C5 at the fixture input `x = 43`. -/
theorem c5_wrapping_arithmetic_witness :
    topLocals (barPoll 43) = some [("a", (43 * 2) % U32_MOD), ("x", 43)]
    ∧ topLocals (bazPoll 43) = some [("x", 43), ("y", (43 <<< 1) % U32_MOD)]
    ∧ (43 <<< 1) % U32_MOD = (2 * 43) % U32_MOD
    ∧ topLocals (barPoll 43) = some [("a", 86), ("x", 43)]
    ∧ topLocals (bazPoll 44) = some [("x", 44), ("y", 88)]
    ∧ topLocals (bazPoll 88) = some [("x", 88), ("y", 176)]
    ∧ topLocals (bazPoll 46) = some [("x", 46), ("y", 92)] :=
  c5_wrapping_arithmetic 43 (by decide)

/-- Claim C6: the leaf awaited in every `baz` branch is perpetually
pending (its poll returns `Poll::Pending` at every poll count), so the
single poll of `foo(x)` in `main` is pending for every input, and the
fixture's `assert_eq!(future.poll_unpin(cx), Poll::Pending)` always
succeeds. -/
theorem c6_root_poll_always_pending (n x : Nat) :
    pendingPoll n = .suspended (.pendingLeaf pendingTyName)
    ∧ isPending (fooPoll x) = true
    ∧ mainAssertOk = true :=
  ⟨rfl, rfl, rfl⟩

/-- Claim C7: the waker built by `dummy_waker` is a no-op: any number
of `wake` or `wake_by_ref` invocations leaves the scheduling state
unchanged, so after the single poll in `main` the poll count stays 1
and no wake request is ever pending — the suspended computation is
never re-polled. -/
theorem c7_dummy_waker_noop (s : SchedState) (n : Nat) :
    dummyWake^[n] s = s
    ∧ dummyWakeByRef^[n] s = s
    ∧ (dummyWake^[n] mainSchedState).polls = 1
    ∧ (dummyWake^[n] mainSchedState).pendingWakes = 0 := by
  have key : ∀ (m : Nat) (t : SchedState), dummyWake^[m] t = t := by
    intro m
    induction m with
    | zero => intro t; rfl
    | succ k ih =>
        intro t
        rw [Function.iterate_succ_apply]
        exact ih t
  refine ⟨key n s, key n s, ?_, ?_⟩ <;> rw [key n mainSchedState] <;> rfl

/-- Claim C8: `zzz` is read-only: its effect trace is a single read of
the given address, so applying it leaves every memory cell unchanged,
it returns unit, and the volatile read yields exactly the stored
value. -/
theorem c8_zzz_read_only (mem : Nat → Nat) (addr : Nat) :
    applyEffects mem (zzz mem addr).2 = mem
    ∧ (zzz mem addr).1 = ()
    ∧ ((zzz mem addr).2).all isReadEffect = true
    ∧ (readVolatile mem addr).1 = mem addr :=
  ⟨rfl, rfl, rfl, rfl⟩

/-- Claim C9: reconstruction is deterministic: two invocations of the
renderer on the same frozen snapshot yield identical text, two polls of
`foo` on the same input capture identical values, and on the fixture
input 42 the rendered text is the fixed golden transcript. -/
theorem c9_reconstruction_deterministic (s t : FutureState) (x y : Nat)
    (hs : s = t) (hx : x = y) :
    renderReport s = renderReport t
    ∧ fooPoll x = fooPoll y
    ∧ renderReport (suspStateD (fooPoll 42)) = expectedLines := by
  subst hs
  subst hx
  exact ⟨rfl, rfl, rfl⟩

/-- Witness for C9: two inspections of the fixture snapshot and two
polls on input 42. -/
theorem c9_reconstruction_deterministic_witness :
    renderReport (suspStateD mainPollResult) = renderReport (suspStateD mainPollResult)
    ∧ fooPoll 42 = fooPoll 42
    ∧ renderReport (suspStateD (fooPoll 42)) = expectedLines :=
  c9_reconstruction_deterministic (suspStateD mainPollResult) (suspStateD mainPollResult)
    42 42 rfl rfl

/-- Claim C10: for every `u32` input `x`, `bar(x)` builds its race
branches with arguments `x + 1`, `x * 2 + 2` and `x + 3` (wrapped), and
the second branch's argument equals twice the first branch's argument
modulo `2^32`. -/
theorem c10_branch_argument_relation (x : Nat) (h : x < U32_MOD) :
    barPoll x = .suspended (.frame "basic_async_stack_trace::bar()"
        [("a", wrap (x * 2)), ("x", x)]
        (.race [ suspStateD (bazPoll (wrap (x + 1)))
               , suspStateD (bazPoll (wrap (wrap (x * 2) + 2)))
               , suspStateD (bazPoll (wrap (x + 3))) ]))
    ∧ wrap (wrap (x * 2) + 2) = wrap (2 * wrap (x + 1)) := by
  refine ⟨rfl, ?_⟩
  simp only [wrap, U32_MOD]
  omega

/-- Witness for C10 at the fixture input `x = 43`. -/
theorem c10_branch_argument_relation_witness :
    barPoll 43 = .suspended (.frame "basic_async_stack_trace::bar()"
        [("a", wrap (43 * 2)), ("x", 43)]
        (.race [ suspStateD (bazPoll (wrap (43 + 1)))
               , suspStateD (bazPoll (wrap (wrap (43 * 2) + 2)))
               , suspStateD (bazPoll (wrap (43 + 3))) ]))
    ∧ wrap (wrap (43 * 2) + 2) = wrap (2 * wrap (43 + 1)) :=
  c10_branch_argument_relation 43 (by decide)

end AsyncStackTraces

